import Mathlib

/-!
Verification of the persistence-and-caching core of `src/xo.py`.

Modelling conventions:
* time is an integer number of seconds; `datetime.now() - timedelta(minutes=m)`
  becomes `now - m * 60`;
* Python dictionaries are association lists kept in insertion order
  (`alookup` / `aset` / `aerase` mirror `d[k]`, `d[k] = v`, `del d[k]`);
* the md5 digests used by the source (`DatabaseManager.add_message`,
  `TranslationCache._make_key`, `AudioManager._get_audio_filename`) are
  modelled by the hashed content string itself: the source relies on the
  digest only as an identifier of that content string;
* `datetime.now().strftime('%Y-%m-%d %H:%M')` (minute-resolution rendering
  of the current time) is modelled by printing the minute count `t / 60`;
* SQLite rows are structures; a query's `WHERE` is a filter, `ORDER BY` a
  sort, `LIMIT n` a `take n`; ties in `ORDER BY timestamp DESC` are left
  unspecified by SQLite, and the properties proved below do not depend on
  how ties are broken;
* audio files on disk are an association list from filename to
  (content bytes, mtime);
* the external translator and synthesizer are functions returning `Option`
  (`none` models a raised exception).
-/

namespace ChatApp

/-- Constant `MAX_MESSAGE_LENGTH = 1000` from `xo.py`. -/
def MAX_MESSAGE_LENGTH : Nat := 1000

/-- Constant `MAX_CHAT_HISTORY = 100` from `xo.py`. -/
def MAX_CHAT_HISTORY : Nat := 100

/-- Constant `CACHE_DURATION = 300` (seconds) from `xo.py`. -/
def CACHE_DURATION : Int := 300

/-- Python `d.get(k)` / `d[k]` on a dict modelled as an assoc list. -/
def alookup {α : Type} : List (String × α) → String → Option α
  | [], _ => none
  | p :: ps, k => if p.1 = k then some p.2 else alookup ps k

/-- Python `d[k] = v`: replace the value in place if the key is present,
otherwise append the new binding (dicts preserve insertion order). -/
def aset {α : Type} : List (String × α) → String → α → List (String × α)
  | [], k, v => [(k, v)]
  | p :: ps, k, v => if p.1 = k then (k, v) :: ps else p :: aset ps k v

/-- Python `del d[k]` (keys are unique in a dict, so removing the first
occurrence is exact). -/
def aerase {α : Type} : List (String × α) → String → List (String × α)
  | [], _ => []
  | p :: ps, k => if p.1 = k then ps else p :: aerase ps k

/-- Python's `<` on strings: lexicographic comparison of code points,
with a proper prefix comparing smaller.  Used by `sorted` in `chat_key`. -/
def charsLt : List Char → List Char → Bool
  | [], [] => false
  | [], _ :: _ => true
  | _ :: _, [] => false
  | a :: as, b :: bs =>
    if a.toNat < b.toNat then true
    else if b.toNat < a.toNat then false
    else charsLt as bs

/-- `chat_key` from `xo.py`: `"|".join(sorted([user1, user2]))`.
`sorted` on a two-element list swaps the elements exactly when the second
compares smaller than the first. -/
def chat_key (user1 user2 : String) : String :=
  match charsLt user2.data user1.data with
  | true => user2 ++ "|" ++ user1
  | false => user1 ++ "|" ++ user2

/-- Python whitespace (the ASCII characters recognised by `str.split()` and
`str.strip()`): space (32), tab (9), newline (10), carriage return (13),
vertical tab (11), form feed (12). -/
def isPyWs (c : Char) : Bool :=
  c.toNat = 32 || c.toNat = 9 || c.toNat = 10 || c.toNat = 13 ||
    c.toNat = 11 || c.toNat = 12

/-- Python `str.strip()`: drop whitespace from both ends. -/
def pyStrip (l : List Char) : List Char :=
  ((l.dropWhile isPyWs).reverse.dropWhile isPyWs).reverse

/-- `s.strip()` on a string. -/
def pyStripStr (s : String) : String := String.mk (pyStrip s.data)

/-- Python `str.split()` with no argument: maximal runs of non-whitespace
characters, with no empty words. -/
def pyWords (l : List Char) : List (List Char) :=
  match l with
  | [] => []
  | c :: cs =>
    if isPyWs c then pyWords cs
    else ((c :: cs).takeWhile (fun x => !isPyWs x)) ::
      pyWords ((c :: cs).dropWhile (fun x => !isPyWs x))
termination_by l.length
decreasing_by
  all_goals simp_all [List.dropWhile_cons]
  exact Nat.lt_succ_of_le (List.dropWhile_sublist _).length_le

/-- `text.split()[0] if text.split() else ""`: the first maximal run of
non-whitespace characters, and `""` when the text is all whitespace.  The
lemma `pyWords_headD` below proves this equal to the head of `pyWords`,
i.e. to what the source expression computes. -/
def pyFirstWord (l : List Char) : List Char :=
  (l.dropWhile isPyWs).takeWhile (fun c => !isPyWs c)

/-- The characters removed by `re.sub(r'[<>"\x27]', '', text)` in
`sanitize_input`: `<`, `>`, the double quote (code 34) and the apostrophe
(code 39). -/
def isRemovedChar (c : Char) : Bool :=
  c = '<' || c = '>' || c.toNat = 34 || c.toNat = 39

/-- `sanitize_input` from `xo.py`: strip the four dangerous characters,
keep only the first whitespace-separated word (or `""` when there is none),
truncate to 20 characters, and `strip()` the result. -/
def sanitize_input (text : String) : String :=
  let cleaned := text.data.filter (fun c => !isRemovedChar c)
  let first_word := pyFirstWord cleaned
  String.mk (pyStrip (first_word.take 20))

/-- A row of the `messages` table (the autoincrement id is immaterial to the
claims and omitted; rows are kept in insertion order). -/
structure MsgRow where
  chat_key : String
  sender : String
  message : String
  original_language : String
  timestamp : Int
  message_hash : String
deriving DecidableEq

/-- Minute-resolution rendering of a timestamp: models
`datetime.now().strftime('%Y-%m-%d %H:%M')`, which is an injective
rendering of the current minute. -/
def minuteRepr (t : Int) : String := toString (t / 60)

/-- The string hashed by `add_message`:
`f"{chat_key}:{sender}:{message}:{datetime.now().strftime('%Y-%m-%d %H:%M')}"`. -/
def message_content (k s m : String) (t : Int) : String :=
  k ++ ":" ++ s ++ ":" ++ m ++ ":" ++ minuteRepr t

/-- `DatabaseManager.add_message`: insert the row unless the UNIQUE
constraint on `message_hash` fires (`sqlite3.IntegrityError`), in which case
nothing is stored and `False` is returned. -/
def add_message (db : List MsgRow) (k s m lang : String) (now : Int) :
    Bool × List MsgRow :=
  if db.any (fun r => r.message_hash == message_content k s m now) then (false, db)
  else (true, db ++ [⟨k, s, m, lang, now, message_content k s m now⟩])

/-- Number of stored messages for a `(chat_key, sender, body)` triple. -/
def countTriple (db : List MsgRow) (k s m : String) : Nat :=
  (db.filter (fun r => r.chat_key == k && r.sender == s && r.message == m)).length

/-- `ORDER BY timestamp DESC`: newer rows first. -/
def byNewest (a b : MsgRow) : Prop := b.timestamp ≤ a.timestamp

instance : DecidableRel byNewest :=
  fun a b => inferInstanceAs (Decidable (b.timestamp ≤ a.timestamp))

instance : IsTotal MsgRow byNewest := ⟨fun a b => le_total b.timestamp a.timestamp⟩

instance : IsTrans MsgRow byNewest := ⟨fun _ _ _ h1 h2 => le_trans h2 h1⟩

/-- `DatabaseManager.get_messages`: rows of the conversation, newest first,
limited, then reversed into chronological order. -/
def get_messages (db : List MsgRow) (key : String) (limit : Nat) : List MsgRow :=
  (((db.filter (fun r => r.chat_key == key)).insertionSort byNewest).take limit).reverse

/-- A row of the `users` table. -/
structure UserRow where
  username : String
  last_seen : Int
  preferred_language : String
deriving DecidableEq

/-- `DatabaseManager.check_user_exists`: a row with this name whose
`last_seen` is strictly later than `now - timedelta(minutes=2)`. -/
def check_user_exists (users : List UserRow) (username : String) (now : Int) : Bool :=
  users.any (fun r => r.username == username && decide (now - 2 * 60 < r.last_seen))

/-- `ORDER BY last_seen DESC`. -/
def byLastSeen (a b : UserRow) : Prop := b.last_seen ≤ a.last_seen

instance : DecidableRel byLastSeen :=
  fun a b => inferInstanceAs (Decidable (b.last_seen ≤ a.last_seen))

instance : IsTotal UserRow byLastSeen := ⟨fun a b => le_total b.last_seen a.last_seen⟩

instance : IsTrans UserRow byLastSeen := ⟨fun _ _ _ h1 h2 => le_trans h2 h1⟩

/-- `DatabaseManager.get_active_users`: names of users whose `last_seen` is
strictly later than `now - timedelta(minutes=minutes)`, most recent first. -/
def get_active_users (users : List UserRow) (now : Int) (minutes : Int) : List String :=
  (((users.filter (fun r => decide (now - minutes * 60 < r.last_seen))).insertionSort
      byLastSeen).map (fun r => r.username))

/-- `DatabaseManager.update_user_activity` (the heartbeat): set the row's
`last_seen` to the current time. -/
def update_user_activity (users : List UserRow) (username : String) (now : Int) :
    List UserRow :=
  users.map (fun r => if r.username = username then { r with last_seen := now } else r)

/-- The send path of `main` (lines 578-587 of `xo.py`): if the raw message
strips to non-empty, sanitize it; if the sanitized form is non-empty, append
it via `add_message`.  Returns the resulting message table. -/
def main_send (db : List MsgRow) (key username new_msg lang : String) (now : Int) :
    List MsgRow :=
  if pyStripStr new_msg ≠ "" then
    if sanitize_input new_msg ≠ "" then
      (add_message db key username (sanitize_input new_msg) lang now).2
    else db
  else db

/-- State of `TranslationCache`: the value dict, the capacity, and the
last-access-time dict. -/
structure TranslationCache where
  cache : List (String × String)
  max_size : Nat
  access_times : List (String × Int)
deriving DecidableEq

/-- `TranslationCache._make_key`: md5 of `f"{text}:{target_lang}"`,
modelled by the hashed content itself. -/
def tc_make_key (text target_lang : String) : String := text ++ ":" ++ target_lang

/-- `TranslationCache.get`: on a hit, refresh the entry's access time and
return the value; on a miss return `None` and leave the state unchanged. -/
def tc_get (s : TranslationCache) (text target_lang : String) (now : Int) :
    Option String × TranslationCache :=
  let k := tc_make_key text target_lang
  match alookup s.cache k with
  | some v => (some v, { s with access_times := aset s.access_times k now })
  | none => (none, s)

/-- One step of Python `min(keys, key=access_time)`: keep the earlier
element on ties, as `min` does over the dict's iteration order. -/
def minPair (acc : Option (String × Int)) (p : String × Int) : Option (String × Int) :=
  match acc with
  | none => some p
  | some q => if p.2 < q.2 then some p else some q

/-- `min(self.access_times.keys(), key=lambda k: self.access_times[k])`. -/
def argminTime (l : List (String × Int)) : Option String :=
  (l.foldl minPair none).map (fun p => p.1)

/-- `TranslationCache.set`: when already holding at least `max_size`
entries, evict the entry with the oldest access time, then store the
translation with the current access time. -/
def tc_set (s : TranslationCache) (text target_lang translation : String) (now : Int) :
    TranslationCache :=
  let s1 :=
    if s.max_size ≤ s.cache.length then
      match argminTime s.access_times with
      | some oldest =>
          { s with cache := aerase s.cache oldest,
                   access_times := aerase s.access_times oldest }
      | none => s
    else s
  let k := tc_make_key text target_lang
  { s1 with cache := aset s1.cache k translation,
            access_times := aset s1.access_times k now }

/-- The `try/except` block of `translate_text` (lines 342-349 of `xo.py`):
call the translator; on success cache the translation and return it, on
failure return the original text with the cache untouched. -/
def translate_attempt (text target_lang : String) (c1 : TranslationCache)
    (translator : String → Option String) (now : Int) : String × TranslationCache :=
  match translator text with
  | some tr => (tr, tc_set c1 text target_lang tr now)
  | none => (text, c1)

/-- `translate_text` from `xo.py`.  `translator` models
`GoogleTranslator(...).translate` (`none` models a raised exception).
Mirrors the source: whitespace-only text is returned as is; a truthy
(non-empty) cached value is returned; otherwise the translator is tried. -/
def translate_text (text target_lang : String) (cache : TranslationCache)
    (translator : String → Option String) (now : Int) : String × TranslationCache :=
  if pyStripStr text = "" then (text, cache)
  else
    match tc_get cache text target_lang now with
    | (some cached, c1) =>
        if cached = "" then translate_attempt text target_lang c1 translator now
        else (cached, c1)
    | (none, c1) => translate_attempt text target_lang c1 translator now

/-- `AudioManager._get_audio_filename`: md5 of `f"{text}:{lang}"` embedded
in the cached file's name, modelled by the hashed content itself. -/
def audio_filename (cache_dir text lang : String) : String :=
  cache_dir ++ "/audio_" ++ (text ++ ":" ++ lang) ++ ".mp3"

/-- The `# Generate new audio` block of `get_audio_bytes`: invoke the
synthesizer; on success save the file (setting its mtime to now) and return
the bytes, on failure return `None` with the filesystem untouched.  The
third component records that synthesis was invoked. -/
def audio_generate (fs : List (String × (List Nat × Int)))
    (cache_dir text lang : String) (synth : String → String → Option (List Nat))
    (now : Int) : Option (List Nat) × List (String × (List Nat × Int)) × Bool :=
  match synth text lang with
  | some bytes => (some bytes, aset fs (audio_filename cache_dir text lang) (bytes, now), true)
  | none => (none, fs, true)

/-- `AudioManager.get_audio_bytes`.  The filesystem maps filenames to
(bytes, mtime); `synth` models `gTTS` synthesis (`none` models a raised
exception).  Returns the bytes served, the new filesystem, and whether
synthesis was invoked.  A cached file younger than `CACHE_DURATION` is
served directly; otherwise the audio is regenerated and saved (which
updates the file's mtime). -/
def get_audio_bytes (fs : List (String × (List Nat × Int)))
    (cache_dir text lang : String) (synth : String → String → Option (List Nat))
    (now : Int) : Option (List Nat) × List (String × (List Nat × Int)) × Bool :=
  match alookup fs (audio_filename cache_dir text lang) with
  | some (bytes, mtime) =>
      if now - mtime < CACHE_DURATION then (some bytes, fs, false)
      else audio_generate fs cache_dir text lang synth now
  | none => audio_generate fs cache_dir text lang synth now

/-- A small concrete message table used to instantiate theorems. -/
def demoDb : List MsgRow :=
  [⟨"a|b", "ana", "hola", "en", 5, "h1"⟩,
   ⟨"a|b", "ben", "hey", "en", 3, "h2"⟩,
   ⟨"x|y", "zoe", "yo", "en", 4, "h3"⟩]

/-! ### Helper lemmas -/

theorem string_eq_of_data {s t : String} (h : s.data = t.data) : s = t :=
  String.toList_inj.mp h

theorem string_append_cancel_left {p x y : String} (h : p ++ x = p ++ y) : x = y := by
  apply string_eq_of_data
  have hd := congrArg String.data h
  simp only [String.data_append] at hd
  exact List.append_cancel_left hd

theorem pyWords_headD (l : List Char) : (pyWords l).headD [] = pyFirstWord l := by
  induction l with
  | nil => simp [pyWords, pyFirstWord]
  | cons c cs ih =>
    rw [pyWords]
    by_cases h : isPyWs c
    · simpa [pyFirstWord, List.dropWhile_cons, h] using ih
    · simp [pyFirstWord, List.dropWhile_cons, h]

theorem mem_pyStrip {l : List Char} {c : Char} (h : c ∈ pyStrip l) : c ∈ l := by
  unfold pyStrip at h
  have h1 := (List.dropWhile_sublist isPyWs).subset (List.mem_reverse.mp h)
  exact (List.dropWhile_sublist isPyWs).subset (List.mem_reverse.mp h1)

theorem pyStrip_length_le (l : List Char) : (pyStrip l).length ≤ l.length := by
  unfold pyStrip
  calc ((((l.dropWhile isPyWs).reverse.dropWhile isPyWs)).reverse).length
      = ((l.dropWhile isPyWs).reverse.dropWhile isPyWs).length := List.length_reverse _
    _ ≤ (l.dropWhile isPyWs).reverse.length := (List.dropWhile_sublist _).length_le
    _ = (l.dropWhile isPyWs).length := List.length_reverse _
    _ ≤ l.length := (List.dropWhile_sublist _).length_le

theorem sanitize_input_length (text : String) : (sanitize_input text).length ≤ 20 := by
  unfold sanitize_input
  calc (String.mk (pyStrip ((pyFirstWord
          (text.data.filter (fun c => !isRemovedChar c))).take 20))).length
      ≤ ((pyFirstWord (text.data.filter (fun c => !isRemovedChar c))).take 20).length :=
        pyStrip_length_le _
    _ ≤ 20 := by simp [List.length_take]

theorem sanitize_input_no_ws (text : String) :
    ∀ c ∈ (sanitize_input text).data, isPyWs c = false := by
  intro c hc
  unfold sanitize_input at hc
  have h1 : c ∈ (pyFirstWord (text.data.filter (fun x => !isRemovedChar x))).take 20 :=
    mem_pyStrip hc
  have h2 : c ∈ pyFirstWord (text.data.filter (fun x => !isRemovedChar x)) :=
    (List.take_sublist _ _).subset h1
  have h3 := List.mem_takeWhile_imp h2
  simpa using h3

theorem charsLt_asymm : ∀ {a b : List Char}, charsLt a b = true → charsLt b a = false := by
  intro a
  induction a with
  | nil => intro b; cases b <;> simp [charsLt]
  | cons x xs ih =>
    intro b
    cases b with
    | nil => simp [charsLt]
    | cons y ys =>
      simp only [charsLt]
      by_cases h1 : x.toNat < y.toNat
      · have h2 : ¬ y.toNat < x.toNat := by omega
        simp [h1, h2]
      · by_cases h2 : y.toNat < x.toNat
        · simp [h1, h2]
        · simp only [h1, h2, if_false]
          exact ih

theorem charsLt_eq_of_not_lt :
    ∀ {a b : List Char}, charsLt a b = false → charsLt b a = false → a = b := by
  intro a
  induction a with
  | nil => intro b; cases b <;> simp [charsLt]
  | cons x xs ih =>
    intro b
    cases b with
    | nil => simp [charsLt]
    | cons y ys =>
      simp only [charsLt]
      by_cases h1 : x.toNat < y.toNat
      · simp [h1]
      · by_cases h2 : y.toNat < x.toNat
        · simp [h1, h2]
        · simp only [h1, h2, if_false]
          intro hab hba
          have hn : x.toNat = y.toNat := by omega
          have hxy : x = y := Char.ext (UInt32.ext hn)
          rw [hxy, ih hab hba]

theorem pipe_split :
    ∀ (x : List Char) (y z w : List Char), '|' ∉ x → '|' ∉ z →
      x ++ '|' :: y = z ++ '|' :: w → x = z ∧ y = w := by
  intro x
  induction x with
  | nil =>
    intro y z w _ hz h
    cases z with
    | nil => simpa using h
    | cons e es =>
      simp only [List.nil_append, List.cons_append, List.cons.injEq] at h
      exact absurd (h.1 ▸ List.mem_cons_self e es) hz
  | cons a as ih =>
    intro y z w hx hz h
    cases z with
    | nil =>
      simp only [List.cons_append, List.nil_append, List.cons.injEq] at h
      exact absurd (h.1 ▸ List.mem_cons_self a as) hx
    | cons e es =>
      simp only [List.cons_append, List.cons.injEq] at h
      obtain ⟨rfl, htail⟩ := h
      have := ih y es w (fun hm => hx (List.mem_cons_of_mem _ hm))
        (fun hm => hz (List.mem_cons_of_mem _ hm)) htail
      exact ⟨by rw [this.1], this.2⟩

theorem join_pipe_data (u v : String) :
    (u ++ "|" ++ v).data = u.data ++ '|' :: v.data := by
  have h1 : ("|" : String).data = ['|'] := rfl
  simp [String.data_append, h1]

/-! ### Claim theorems -/

/-- Claim C4: the pairwise chat key is independent of the order of the two
participants: `chat_key a b = chat_key b a` for all user names. -/
theorem C4_chat_key_comm (a b : String) : chat_key a b = chat_key b a := by
  cases h1 : charsLt b.data a.data with
  | true =>
    have h2 : charsLt a.data b.data = false := charsLt_asymm h1
    unfold chat_key
    rw [h1, h2]
  | false =>
    cases h2 : charsLt a.data b.data with
    | true =>
      unfold chat_key
      rw [h1, h2]
    | false =>
      have hab : a = b := string_eq_of_data (charsLt_eq_of_not_lt h2 h1)
      rw [hab]

/-- Claim C5 counterexample: `chat_key` is not injective on participant
sets.  The names `"a"` and `"b|c"` form a different set than `"a|b"` and
`"c"`, yet both sets receive the key `"a|b|c"`, because the separator `|`
may occur inside a name. -/
theorem C5_chat_key_collision_cex :
    chat_key "a" "b|c" = chat_key "a|b" "c" ∧
      ({"a", "b|c"} : Finset String) ≠ {"a|b", "c"} := by
  constructor
  · decide
  · decide

/-- Claim C5 amended: `chat_key` is injective on participant sets whose
names do not contain the separator character `|`. -/
theorem C5_chat_key_inj_amended (a b c d : String)
    (ha : '|' ∉ a.data) (hb : '|' ∉ b.data) (hc : '|' ∉ c.data) (hd : '|' ∉ d.data)
    (h : chat_key a b = chat_key c d) :
    ({a, b} : Finset String) = {c, d} := by
  cases h1 : charsLt b.data a.data with
  | true =>
    have e1 : chat_key a b = b ++ "|" ++ a := by unfold chat_key; rw [h1]
    cases h2 : charsLt d.data c.data with
    | true =>
      have e2 : chat_key c d = d ++ "|" ++ c := by unfold chat_key; rw [h2]
      rw [e1, e2] at h
      have hdata := congrArg String.data h
      rw [join_pipe_data, join_pipe_data] at hdata
      obtain ⟨x1, x2⟩ := pipe_split _ _ _ _ hb hd hdata
      rw [string_eq_of_data x1, string_eq_of_data x2]
    | false =>
      have e2 : chat_key c d = c ++ "|" ++ d := by unfold chat_key; rw [h2]
      rw [e1, e2] at h
      have hdata := congrArg String.data h
      rw [join_pipe_data, join_pipe_data] at hdata
      obtain ⟨x1, x2⟩ := pipe_split _ _ _ _ hb hc hdata
      rw [string_eq_of_data x1, string_eq_of_data x2, Finset.pair_comm]
  | false =>
    have e1 : chat_key a b = a ++ "|" ++ b := by unfold chat_key; rw [h1]
    cases h2 : charsLt d.data c.data with
    | true =>
      have e2 : chat_key c d = d ++ "|" ++ c := by unfold chat_key; rw [h2]
      rw [e1, e2] at h
      have hdata := congrArg String.data h
      rw [join_pipe_data, join_pipe_data] at hdata
      obtain ⟨x1, x2⟩ := pipe_split _ _ _ _ ha hd hdata
      rw [string_eq_of_data x1, string_eq_of_data x2, Finset.pair_comm]
    | false =>
      have e2 : chat_key c d = c ++ "|" ++ d := by unfold chat_key; rw [h2]
      rw [e1, e2] at h
      have hdata := congrArg String.data h
      rw [join_pipe_data, join_pipe_data] at hdata
      obtain ⟨x1, x2⟩ := pipe_split _ _ _ _ ha hc hdata
      rw [string_eq_of_data x1, string_eq_of_data x2]

/-- Claim C5 amended, witness: concrete pipe-free names. -/
theorem C5_chat_key_inj_amended_witness :
    ({"x", "y"} : Finset String) = {"y", "x"} :=
  C5_chat_key_inj_amended "x" "y" "y" "x" (by decide) (by decide) (by decide)
    (by decide) (by decide)

theorem message_content_congr {k s m : String} {t1 t2 : Int}
    (h : minuteRepr t1 = minuteRepr t2) :
    message_content k s m t1 = message_content k s m t2 := by
  unfold message_content
  rw [h]

theorem message_content_minute_inj {k s m : String} {t1 t2 : Int}
    (h : message_content k s m t1 = message_content k s m t2) :
    minuteRepr t1 = minuteRepr t2 :=
  string_append_cancel_left h

theorem add_message_insert (db : List MsgRow) (k s m lang : String) (t : Int)
    (h : ∀ r ∈ db, r.message_hash ≠ message_content k s m t) :
    add_message db k s m lang t =
      (true, db ++ [⟨k, s, m, lang, t, message_content k s m t⟩]) := by
  have hany : db.any (fun r => r.message_hash == message_content k s m t) = false := by
    rw [List.any_eq_false]
    intro r hr
    simpa using h r hr
  unfold add_message
  rw [hany]
  simp

theorem add_message_dup (db : List MsgRow) (k s m lang : String) (t : Int)
    {r : MsgRow} (hr : r ∈ db) (hh : r.message_hash = message_content k s m t) :
    add_message db k s m lang t = (false, db) := by
  have hany : db.any (fun x => x.message_hash == message_content k s m t) = true :=
    List.any_eq_true.mpr ⟨r, hr, by simp [hh]⟩
  unfold add_message
  rw [hany]
  simp

theorem countTriple_append (db1 db2 : List MsgRow) (k s m : String) :
    countTriple (db1 ++ db2) k s m = countTriple db1 k s m + countTriple db2 k s m := by
  simp [countTriple, List.filter_append]

theorem countTriple_self_single (k s m lang hsh : String) (t : Int) :
    countTriple [⟨k, s, m, lang, t, hsh⟩] k s m = 1 := by
  simp [countTriple]

/-- Claim C1: starting from a store with no message for the triple
`(k, s, m)` and no hash collision with it, a first `add_message` inserts
(returns `true`); a second identical call in the same minute is suppressed
(returns `false`, stores nothing, leaving exactly one message for the
triple); a second identical call with a different minute-resolution
timestamp inserts, leaving two messages for the triple. -/
theorem C1_duplicate_suppression
    (db : List MsgRow) (k s m lang : String) (t1 t2 : Int)
    (htrip : countTriple db k s m = 0)
    (hh1 : ∀ r ∈ db, r.message_hash ≠ message_content k s m t1)
    (hh2 : ∀ r ∈ db, r.message_hash ≠ message_content k s m t2) :
    (add_message db k s m lang t1).1 = true ∧
    countTriple (add_message db k s m lang t1).2 k s m = 1 ∧
    (minuteRepr t1 = minuteRepr t2 →
      add_message (add_message db k s m lang t1).2 k s m lang t2 =
        (false, (add_message db k s m lang t1).2)) ∧
    (minuteRepr t1 ≠ minuteRepr t2 →
      (add_message (add_message db k s m lang t1).2 k s m lang t2).1 = true ∧
      countTriple (add_message (add_message db k s m lang t1).2 k s m lang t2).2
        k s m = 2) := by
  have e1 := add_message_insert db k s m lang t1 hh1
  have hcount1 : countTriple (add_message db k s m lang t1).2 k s m = 1 := by
    rw [e1, countTriple_append, htrip, countTriple_self_single]
  refine ⟨by rw [e1], hcount1, ?_, ?_⟩
  · intro hmin
    have hrowmem : (⟨k, s, m, lang, t1, message_content k s m t1⟩ : MsgRow) ∈
        (add_message db k s m lang t1).2 := by
      rw [e1]
      simp
    exact add_message_dup _ k s m lang t2 hrowmem (message_content_congr hmin.symm).symm
  · intro hmin
    have hh2' : ∀ r ∈ (add_message db k s m lang t1).2,
        r.message_hash ≠ message_content k s m t2 := by
      rw [e1]
      intro r hr
      rcases List.mem_append.mp hr with hin | hin
      · exact hh2 r hin
      · have : r = ⟨k, s, m, lang, t1, message_content k s m t1⟩ := by simpa using hin
        rw [this]
        exact fun e => hmin (message_content_minute_inj e)
    have e2 := add_message_insert _ k s m lang t2 hh2'
    refine ⟨by rw [e2], ?_⟩
    rw [e2, countTriple_append, hcount1, countTriple_self_single]

/-- Claim C1 witness: from an empty store, `hola` sent twice at seconds 0
and 30 (same minute) is suppressed the second time; sent at seconds 0 and
90 (different minutes) it is stored twice. -/
theorem C1_duplicate_suppression_witness :
    (add_message [] "a|b" "ana" "hola" "en" 0).1 = true ∧
    add_message (add_message [] "a|b" "ana" "hola" "en" 0).2 "a|b" "ana" "hola" "en" 30 =
      (false, (add_message [] "a|b" "ana" "hola" "en" 0).2) ∧
    (add_message (add_message [] "a|b" "ana" "hola" "en" 0).2
        "a|b" "ana" "hola" "en" 90).1 = true ∧
    countTriple (add_message (add_message [] "a|b" "ana" "hola" "en" 0).2
        "a|b" "ana" "hola" "en" 90).2 "a|b" "ana" "hola" = 2 := by
  have h1 := C1_duplicate_suppression [] "a|b" "ana" "hola" "en" 0 30
    (by decide) (by simp) (by simp)
  have h2 := C1_duplicate_suppression [] "a|b" "ana" "hola" "en" 0 90
    (by decide) (by simp) (by simp)
  exact ⟨h1.1, h1.2.2.1 (by decide), (h2.2.2.2 (by decide)).1, (h2.2.2.2 (by decide)).2⟩

/-- Claim C2 counterexample: `add_message` performs no validation.  A body
that is empty after trimming is inserted and the call reports success,
contradicting the claim that the store rejects it and stores nothing. -/
theorem C2_store_validation_cex :
    (add_message [] "a|b" "ana" "" "en" 0).1 = true ∧
    countTriple (add_message [] "a|b" "ana" "" "en" 0).2 "a|b" "ana" "" = 1 ∧
    pyStripStr "" = "" := by
  refine ⟨by decide, by decide, by decide⟩

/-- Claim C2 amended: the store itself never rejects a body; any body that
does not collide with a stored hash is inserted, regardless of emptiness or
length.  Emptiness is screened only by the caller: the send path of `main`
skips the append entirely when the raw body trims to empty. -/
theorem C2_validation_amended :
    (∀ (db : List MsgRow) (k s m lang : String) (t : Int),
      (∀ r ∈ db, r.message_hash ≠ message_content k s m t) →
      add_message db k s m lang t =
        (true, db ++ [⟨k, s, m, lang, t, message_content k s m t⟩])) ∧
    (∀ (db : List MsgRow) (key u msg lang : String) (t : Int),
      pyStripStr msg = "" → main_send db key u msg lang t = db) := by
  refine ⟨fun db k s m lang t h => add_message_insert db k s m lang t h, ?_⟩
  intro db key u msg lang t hstrip
  unfold main_send
  simp [hstrip]

/-- Claim C2 amended, witness: an empty body is inserted by the store, and
a whitespace-only body is dropped by the send path before reaching it. -/
theorem C2_validation_amended_witness :
    add_message [] "k" "ana" "" "en" 0 =
      (true, [⟨"k", "ana", "", "en", 0, message_content "k" "ana" "" 0⟩]) ∧
    main_send [⟨"k", "ana", "hi", "en", 0, "h"⟩] "k" "ana" "   " "en" 5 =
      [⟨"k", "ana", "hi", "en", 0, "h"⟩] :=
  ⟨C2_validation_amended.1 [] "k" "ana" "" "en" 0 (by simp),
   C2_validation_amended.2 _ "k" "ana" "   " "en" 5 (by decide)⟩

/-- Claim C3: a message going through the send path is either dropped or
stored with body exactly `sanitize_input` of the raw body, and every
`sanitize_input` result is a single word (no whitespace) of at most 20
characters. -/
theorem C3_sanitized_append (db : List MsgRow) (key u msg lang : String) (t : Int) :
    (main_send db key u msg lang t = db ∨
      main_send db key u msg lang t =
        db ++ [⟨key, u, sanitize_input msg, lang, t,
                message_content key u (sanitize_input msg) t⟩]) ∧
    (sanitize_input msg).length ≤ 20 ∧
    (∀ c ∈ (sanitize_input msg).data, isPyWs c = false) := by
  refine ⟨?_, sanitize_input_length msg, sanitize_input_no_ws msg⟩
  unfold main_send
  by_cases h1 : pyStripStr msg ≠ ""
  · rw [if_pos h1]
    by_cases h2 : sanitize_input msg ≠ ""
    · rw [if_pos h2]
      unfold add_message
      by_cases h3 : db.any
          (fun r => r.message_hash == message_content key u (sanitize_input msg) t) = true
      · rw [if_pos h3]
        exact Or.inl rfl
      · rw [if_neg h3]
        exact Or.inr rfl
    · rw [if_neg h2]
      exact Or.inl rfl
  · rw [if_neg h1]
    exact Or.inl rfl

/-- Claim C3 witness: a concrete multi-word body with markup characters is
stored as its sanitized first word. -/
theorem C3_sanitized_append_witness :
    (main_send [] "a|b" "ana" " <h>i there " "en" 0 = [] ∨
      main_send [] "a|b" "ana" " <h>i there " "en" 0 =
        [] ++ [⟨"a|b", "ana", sanitize_input " <h>i there ", "en", 0,
                message_content "a|b" "ana" (sanitize_input " <h>i there ") 0⟩]) ∧
    (sanitize_input " <h>i there ").length ≤ 20 ∧
    (∀ c ∈ (sanitize_input " <h>i there ").data, isPyWs c = false) :=
  C3_sanitized_append [] "a|b" "ana" " <h>i there " "en" 0

/-- Claim C6: `get_messages` returns at most `limit` rows (default limit
`MAX_CHAT_HISTORY = 100`), all belonging to the requested conversation, in
non-decreasing timestamp (chronological, oldest-first) order. -/
theorem C6_recent_bounded_ordered (db : List MsgRow) (key : String) (limit : Nat) :
    (get_messages db key limit).length ≤ limit ∧
    (∀ r ∈ get_messages db key limit, r.chat_key = key) ∧
    List.Sorted (fun a b : MsgRow => a.timestamp ≤ b.timestamp)
      (get_messages db key limit) ∧
    MAX_CHAT_HISTORY = 100 := by
  refine ⟨?_, ?_, ?_, rfl⟩
  · unfold get_messages
    rw [List.length_reverse, List.length_take]
    exact min_le_left _ _
  · intro r hr
    unfold get_messages at hr
    rw [List.mem_reverse] at hr
    have h1 := (List.take_sublist _ _).subset hr
    rw [List.mem_insertionSort] at h1
    have h2 := List.mem_filter.mp h1
    simpa using h2.2
  · unfold get_messages
    have hs : List.Sorted byNewest
        ((db.filter (fun r => r.chat_key == key)).insertionSort byNewest) :=
      List.sorted_insertionSort byNewest _
    have ht : List.Sorted byNewest
        (((db.filter (fun r => r.chat_key == key)).insertionSort byNewest).take limit) :=
      hs.sublist (List.take_sublist _ _)
    rw [List.Sorted, List.pairwise_reverse]
    exact ht

/-- Claim C6 witness: a concrete three-row table queried with limit 1. -/
theorem C6_recent_bounded_ordered_witness :
    (get_messages demoDb "a|b" 1).length ≤ 1 ∧
    List.Sorted (fun a b : MsgRow => a.timestamp ≤ b.timestamp)
      (get_messages demoDb "a|b" 1) :=
  ⟨(C6_recent_bounded_ordered demoDb "a|b" 1).1,
   (C6_recent_bounded_ordered demoDb "a|b" 1).2.2.1⟩

theorem mem_get_active_users (users : List UserRow) (u : String) (now m : Int) :
    u ∈ get_active_users users now m ↔
      ∃ r ∈ users, r.username = u ∧ now - r.last_seen < m * 60 := by
  unfold get_active_users
  rw [List.mem_map]
  constructor
  · rintro ⟨r, hr, rfl⟩
    rw [List.mem_insertionSort] at hr
    have h2 := List.mem_filter.mp hr
    refine ⟨r, h2.1, rfl, ?_⟩
    have := of_decide_eq_true h2.2
    omega
  · rintro ⟨r, hr, hu, hact⟩
    refine ⟨r, ?_, hu⟩
    rw [List.mem_insertionSort, List.mem_filter]
    exact ⟨hr, decide_eq_true (by omega)⟩

theorem check_user_exists_iff (users : List UserRow) (u : String) (now : Int) :
    check_user_exists users u now = true ↔
      ∃ r ∈ users, r.username = u ∧ now - r.last_seen < 2 * 60 := by
  unfold check_user_exists
  rw [List.any_eq_true]
  constructor
  · rintro ⟨r, hr, hp⟩
    rw [Bool.and_eq_true] at hp
    exact ⟨r, hr, by simpa using hp.1, by have := of_decide_eq_true hp.2; omega⟩
  · rintro ⟨r, hr, hu, hact⟩
    refine ⟨r, hr, ?_⟩
    rw [Bool.and_eq_true]
    exact ⟨by simpa using hu, decide_eq_true (by omega)⟩

/-- Claim C7 counterexample: at the exact boundary `now - lastSeen = window`
(here 120 seconds with the 2-minute window) the code reports the user
inactive, because both activity queries use the strict comparison
`last_seen > now - window`; the claim's `now - lastSeenAt <= window` would
report the user active. -/
theorem C7_boundary_cex :
    check_user_exists [⟨"ana", 0, "en"⟩] "ana" 120 = false ∧
    get_active_users [⟨"ana", 0, "en"⟩] 120 2 = [] ∧
    (120 : Int) - 0 ≤ 2 * 60 := by
  refine ⟨by decide, by decide, by decide⟩

/-- Claim C7 amended: activity is strict.  A user is listed active iff some
row with their name satisfies `now - last_seen < window` (window in
minutes, `check_user_exists` fixing 2 minutes); a user is active
immediately after a heartbeat whenever the window is positive, and is no
longer active once at least the window has elapsed since the heartbeat. -/
theorem C7_active_window_amended :
    (∀ (users : List UserRow) (u : String) (now m : Int),
      u ∈ get_active_users users now m ↔
        ∃ r ∈ users, r.username = u ∧ now - r.last_seen < m * 60) ∧
    (∀ (users : List UserRow) (u : String) (now : Int),
      check_user_exists users u now = true ↔
        ∃ r ∈ users, r.username = u ∧ now - r.last_seen < 2 * 60) ∧
    (∀ (users : List UserRow) (u : String) (now m : Int),
      0 < m → (∃ r ∈ users, r.username = u) →
      u ∈ get_active_users (update_user_activity users u now) now m) ∧
    (∀ (users : List UserRow) (u : String) (now m later : Int),
      m * 60 ≤ later - now →
      u ∉ get_active_users (update_user_activity users u now) later m) := by
  refine ⟨mem_get_active_users, check_user_exists_iff, ?_, ?_⟩
  · rintro users u now m hm ⟨r, hr, hu⟩
    rw [mem_get_active_users]
    refine ⟨{ r with last_seen := now }, ?_, by simpa using hu, by simp; omega⟩
    unfold update_user_activity
    rw [List.mem_map]
    exact ⟨r, hr, by rw [if_pos hu]⟩
  · rintro users u now m later hlate hmem
    rw [mem_get_active_users] at hmem
    obtain ⟨r, hr, hu, hact⟩ := hmem
    unfold update_user_activity at hr
    rw [List.mem_map] at hr
    obtain ⟨r0, hr0, hmap⟩ := hr
    by_cases h : r0.username = u
    · rw [if_pos h] at hmap
      rw [← hmap] at hact
      simp at hact
      omega
    · rw [if_neg h] at hmap
      rw [← hmap] at hu
      exact h hu

/-- Claim C7 amended, witness: a user heartbeating at second 1000 is
active at second 1000 and inactive at second 1120 (2-minute window). -/
theorem C7_active_window_amended_witness :
    "ana" ∈ get_active_users (update_user_activity [⟨"ana", 0, "en"⟩] "ana" 1000) 1000 2 ∧
    "ana" ∉ get_active_users (update_user_activity [⟨"ana", 0, "en"⟩] "ana" 1000) 1120 2 :=
  ⟨C7_active_window_amended.2.2.1 [⟨"ana", 0, "en"⟩] "ana" 1000 2 (by decide)
      ⟨⟨"ana", 0, "en"⟩, by simp, rfl⟩,
   C7_active_window_amended.2.2.2 [⟨"ana", 0, "en"⟩] "ana" 1000 2 1120 (by decide)⟩

theorem alookup_aset_self {α : Type} (l : List (String × α)) (k : String) (v : α) :
    alookup (aset l k v) k = some v := by
  induction l with
  | nil => simp [aset, alookup]
  | cons p ps ih =>
    by_cases h : p.1 = k
    · simp [aset, h, alookup]
    · simp [aset, h, alookup, ih]

theorem alookup_aset_ne {α : Type} (l : List (String × α)) (k k' : String) (v : α)
    (hne : k' ≠ k) : alookup (aset l k v) k' = alookup l k' := by
  induction l with
  | nil => simp [aset, alookup, Ne.symm hne]
  | cons p ps ih =>
    by_cases h : p.1 = k
    · have hp : p.1 ≠ k' := h ▸ Ne.symm hne
      simp [aset, h, alookup, Ne.symm hne, hp]
    · simp [aset, h, alookup, ih]

theorem alookup_eq_none_of_not_mem {α : Type} (l : List (String × α)) (k : String)
    (h : k ∉ l.map Prod.fst) : alookup l k = none := by
  induction l with
  | nil => rfl
  | cons p ps ih =>
    rw [List.map_cons, List.mem_cons] at h
    push_neg at h
    simp [alookup, Ne.symm h.1, ih h.2]

theorem alookup_aerase_self {α : Type} (l : List (String × α)) (k : String)
    (hnd : (l.map Prod.fst).Nodup) : alookup (aerase l k) k = none := by
  induction l with
  | nil => rfl
  | cons p ps ih =>
    rw [List.map_cons, List.nodup_cons] at hnd
    by_cases h : p.1 = k
    · rw [aerase, if_pos h]
      exact alookup_eq_none_of_not_mem ps k (h ▸ hnd.1)
    · simp [aerase, h, alookup, ih hnd.2]

theorem alookup_aerase_ne {α : Type} (l : List (String × α)) (k k' : String)
    (hne : k' ≠ k) : alookup (aerase l k) k' = alookup l k' := by
  induction l with
  | nil => rfl
  | cons p ps ih =>
    by_cases h : p.1 = k
    · have hp : p.1 ≠ k' := h ▸ Ne.symm hne
      simp [aerase, h, alookup, hp, Ne.symm hne]
    · simp [aerase, h, alookup, ih]

theorem foldl_minPair_spec :
    ∀ (l : List (String × Int)) (acc : Option (String × Int)) (r : String × Int),
      l.foldl minPair acc = some r →
      (r ∈ l ∨ acc = some r) ∧ (∀ p ∈ l, r.2 ≤ p.2) ∧
        (∀ q, acc = some q → r.2 ≤ q.2) := by
  intro l
  induction l with
  | nil =>
    intro acc r h
    simp only [List.foldl_nil] at h
    refine ⟨Or.inr h, by simp, ?_⟩
    intro q hq
    rw [h] at hq
    cases hq
    exact le_refl _
  | cons p ps ih =>
    intro acc r h
    rw [List.foldl_cons] at h
    obtain ⟨h1, h2, h3⟩ := ih (minPair acc p) r h
    have hminp : r.2 ≤ p.2 ∧ (∀ q, acc = some q → r.2 ≤ q.2) := by
      cases acc with
      | none =>
        refine ⟨h3 p rfl, ?_⟩
        intro q hq
        exact absurd hq (by simp)
      | some q0 =>
        by_cases hlt : p.2 < q0.2
        · have hrp : r.2 ≤ p.2 := h3 p (by simp [minPair, hlt])
          refine ⟨hrp, ?_⟩
          intro q hq
          cases hq
          exact le_trans hrp (le_of_lt hlt)
        · have hrq : r.2 ≤ q0.2 := h3 q0 (by simp [minPair, hlt])
          refine ⟨le_trans hrq (by omega), ?_⟩
          intro q hq
          cases hq
          exact hrq
    refine ⟨?_, ?_, hminp.2⟩
    · cases h1 with
      | inl hmem => exact Or.inl (List.mem_cons_of_mem _ hmem)
      | inr hacc =>
        cases acc with
        | none =>
          have hpr : p = r := by simpa [minPair] using hacc
          exact Or.inl (hpr ▸ List.mem_cons_self _ _)
        | some q0 =>
          by_cases hlt : p.2 < q0.2
          · have hpr : p = r := by simpa [minPair, hlt] using hacc
            exact Or.inl (hpr ▸ List.mem_cons_self _ _)
          · have hqr : q0 = r := by simpa [minPair, hlt] using hacc
            exact Or.inr (by rw [hqr])
    · intro x hx
      rcases List.mem_cons.mp hx with hx' | hx'
      · rw [hx']
        exact hminp.1
      · exact h2 x hx'

theorem argminTime_spec (l : List (String × Int)) (k0 : String)
    (h : argminTime l = some k0) :
    ∃ t0, (k0, t0) ∈ l ∧ ∀ p ∈ l, t0 ≤ p.2 := by
  unfold argminTime at h
  cases hf : l.foldl minPair none with
  | none => rw [hf] at h; simp at h
  | some r =>
    rw [hf] at h
    simp only [Option.map] at h
    have hk : r.1 = k0 := by
      cases h
      rfl
    obtain ⟨h1, h2, _⟩ := foldl_minPair_spec l none r hf
    rcases h1 with hm | habs
    · refine ⟨r.2, ?_, h2⟩
      rw [← hk]
      exact hm
    · simp at habs

theorem tc_get_eq (s : TranslationCache) (text lang : String) (now : Int) :
    tc_get s text lang now =
      match alookup s.cache (tc_make_key text lang) with
      | some v => (some v,
          { s with access_times := aset s.access_times (tc_make_key text lang) now })
      | none => (none, s) := rfl

/-- Claim C8: the translation cache is an access-time LRU: a `get` right
after a `put` of the same `(text, lang)` returns the stored value; a `get`
hit stamps the entry's access time with the current time; `argminTime`
(the eviction choice) picks an entry with minimal access time; and a `set`
performed at capacity evicts exactly that oldest-accessed entry (when it is
not the key being written) while every other entry survives unchanged. -/
theorem C8_translation_cache_lru :
    (∀ (s : TranslationCache) (text lang v : String) (now later : Int),
      (tc_get (tc_set s text lang v now) text lang later).1 = some v) ∧
    (∀ (s : TranslationCache) (text lang : String) (now : Int) (v : String)
        (s' : TranslationCache),
      tc_get s text lang now = (some v, s') →
      alookup s'.access_times (tc_make_key text lang) = some now) ∧
    (∀ (l : List (String × Int)) (k0 : String),
      argminTime l = some k0 → ∃ t0, (k0, t0) ∈ l ∧ ∀ p ∈ l, t0 ≤ p.2) ∧
    (∀ (s : TranslationCache) (text lang v : String) (now : Int) (k0 : String),
      (s.cache.map Prod.fst).Nodup →
      s.max_size ≤ s.cache.length →
      argminTime s.access_times = some k0 →
      k0 ≠ tc_make_key text lang →
      alookup (tc_set s text lang v now).cache k0 = none ∧
      ∀ k', k' ≠ k0 → k' ≠ tc_make_key text lang →
        alookup (tc_set s text lang v now).cache k' = alookup s.cache k') := by
  refine ⟨?_, ?_, argminTime_spec, ?_⟩
  · intro s text lang v now later
    have hset : alookup (tc_set s text lang v now).cache (tc_make_key text lang) =
        some v := by
      simp only [tc_set]
      exact alookup_aset_self _ _ _
    rw [tc_get_eq, hset]
  · intro s text lang now v s' h
    rw [tc_get_eq] at h
    cases halo : alookup s.cache (tc_make_key text lang) with
    | none =>
      rw [halo] at h
      simp at h
    | some w =>
      rw [halo] at h
      rw [Prod.mk.injEq] at h
      rw [← h.2]
      exact alookup_aset_self _ _ _
  · intro s text lang v now k0 hnd hcap hmin hne
    have hbranch : tc_set s text lang v now =
        { cache := aset (aerase s.cache k0) (tc_make_key text lang) v,
          max_size := s.max_size,
          access_times := aset (aerase s.access_times k0) (tc_make_key text lang) now } := by
      unfold tc_set
      rw [if_pos hcap, hmin]
    constructor
    · rw [hbranch]
      have h1 : alookup (aset (aerase s.cache k0) (tc_make_key text lang) v) k0 =
          alookup (aerase s.cache k0) k0 := alookup_aset_ne _ _ _ _ hne
      rw [h1]
      exact alookup_aerase_self _ _ hnd
    · intro k' hk1 hk2
      rw [hbranch]
      have h1 : alookup (aset (aerase s.cache k0) (tc_make_key text lang) v) k' =
          alookup (aerase s.cache k0) k' := alookup_aset_ne _ _ _ _ hk2
      rw [h1]
      exact alookup_aerase_ne _ _ _ hk1

/-- Claim C8 witness: `a:en` was accessed at time 5, `b:en` only at time 3;
inserting `c:en` into the full (capacity-2) cache evicts the untouched
older `b:en` while the more recently accessed `a:en` survives. -/
theorem C8_translation_cache_lru_witness :
    (tc_get (tc_set ⟨[], 2, []⟩ "hi" "fr" "salut" 0) "hi" "fr" 1).1 = some "salut" ∧
    alookup (tc_set ⟨[("a:en", "1"), ("b:en", "2")], 2, [("a:en", 5), ("b:en", 3)]⟩
        "c" "en" "3" 9).cache "b:en" = none ∧
    alookup (tc_set ⟨[("a:en", "1"), ("b:en", "2")], 2, [("a:en", 5), ("b:en", 3)]⟩
        "c" "en" "3" 9).cache "a:en" = some "1" := by
  refine ⟨C8_translation_cache_lru.1 ⟨[], 2, []⟩ "hi" "fr" "salut" 0 1, ?_, ?_⟩
  · exact (C8_translation_cache_lru.2.2.2 ⟨[("a:en", "1"), ("b:en", "2")], 2,
      [("a:en", 5), ("b:en", 3)]⟩ "c" "en" "3" 9 "b:en" (by decide) (by decide)
      (by decide) (by decide)).1
  · exact (C8_translation_cache_lru.2.2.2 ⟨[("a:en", "1"), ("b:en", "2")], 2,
      [("a:en", 5), ("b:en", 3)]⟩ "c" "en" "3" 9 "b:en" (by decide) (by decide)
      (by decide) (by decide)).2 "a:en" (by decide) (by decide)

/-- Claim C9: when the translator fails, `translate_text` never stores
anything (the value dict is unchanged in every branch), and on a cache miss
it returns the original text with the cache state exactly as it was. -/
theorem C9_translate_failure_safe (cache : TranslationCache) (text lang : String)
    (translator : String → Option String) (now : Int)
    (hfail : translator text = none) :
    (translate_text text lang cache translator now).2.cache = cache.cache ∧
    (alookup cache.cache (tc_make_key text lang) = none →
      translate_text text lang cache translator now = (text, cache)) := by
  have hatt : ∀ c1 : TranslationCache,
      translate_attempt text lang c1 translator now = (text, c1) := by
    intro c1
    unfold translate_attempt
    rw [hfail]
  constructor
  · unfold translate_text
    by_cases h1 : pyStripStr text = ""
    · rw [if_pos h1]
    · rw [if_neg h1]
      cases hg : alookup cache.cache (tc_make_key text lang) with
      | some w =>
        rw [tc_get_eq, hg]
        dsimp only
        by_cases hw : w = ""
        · rw [if_pos hw, hatt]
        · rw [if_neg hw]
      | none =>
        rw [tc_get_eq, hg]
        dsimp only
        rw [hatt]
  · intro hmiss
    unfold translate_text
    by_cases h1 : pyStripStr text = ""
    · rw [if_pos h1]
    · rw [if_neg h1]
      rw [tc_get_eq, hmiss]
      dsimp only
      rw [hatt]

/-- Claim C9 witness: a failing translator on an empty cache returns the
original text and leaves the cache untouched. -/
theorem C9_translate_failure_safe_witness :
    translate_text "hola" "en" ⟨[], 1000, []⟩ (fun _ => none) 0 =
      ("hola", ⟨[], 1000, []⟩) :=
  (C9_translate_failure_safe ⟨[], 1000, []⟩ "hola" "en" (fun _ => none) 0 rfl).2 rfl

/-- Claim C10: with no cached artifact, a first call synthesizes and saves
the audio; a second call within the freshness window serves the saved bytes
without invoking synthesis; a call at least `CACHE_DURATION` after the
artifact was created invokes synthesis again. -/
theorem C10_audio_cache_freshness (fs : List (String × (List Nat × Int)))
    (cache_dir text lang : String) (synth : String → String → Option (List Nat))
    (b : List Nat) (t0 t1 t2 : Int)
    (habsent : alookup fs (audio_filename cache_dir text lang) = none)
    (hsynth : synth text lang = some b)
    (hfresh : t1 - t0 < CACHE_DURATION)
    (hstale : CACHE_DURATION ≤ t2 - t0) :
    get_audio_bytes fs cache_dir text lang synth t0 =
      (some b, aset fs (audio_filename cache_dir text lang) (b, t0), true) ∧
    get_audio_bytes (get_audio_bytes fs cache_dir text lang synth t0).2.1
        cache_dir text lang synth t1 =
      (some b, (get_audio_bytes fs cache_dir text lang synth t0).2.1, false) ∧
    (get_audio_bytes (get_audio_bytes fs cache_dir text lang synth t0).2.1
        cache_dir text lang synth t2).2.2 = true := by
  have e1 : get_audio_bytes fs cache_dir text lang synth t0 =
      (some b, aset fs (audio_filename cache_dir text lang) (b, t0), true) := by
    unfold get_audio_bytes audio_generate
    rw [habsent, hsynth]
  have hlook : alookup (aset fs (audio_filename cache_dir text lang) (b, t0))
      (audio_filename cache_dir text lang) = some (b, t0) := alookup_aset_self _ _ _
  refine ⟨e1, ?_, ?_⟩
  · rw [e1]
    unfold get_audio_bytes
    rw [hlook]
    dsimp only
    rw [if_pos hfresh]
  · rw [e1]
    unfold get_audio_bytes
    rw [hlook]
    dsimp only
    rw [if_neg (show ¬ t2 - t0 < CACHE_DURATION by omega)]
    unfold audio_generate
    rw [hsynth]

/-- Claim C10 witness: concrete calls at seconds 0, 100 and 300 with a
300-second freshness window. -/
theorem C10_audio_cache_freshness_witness :
    (get_audio_bytes [] "audio_cache" "hello" "en"
        (fun _ _ => some [1, 2, 3]) 0).1 = some [1, 2, 3] ∧
    get_audio_bytes (get_audio_bytes [] "audio_cache" "hello" "en"
        (fun _ _ => some [1, 2, 3]) 0).2.1 "audio_cache" "hello" "en"
        (fun _ _ => some [1, 2, 3]) 100 =
      (some [1, 2, 3], (get_audio_bytes [] "audio_cache" "hello" "en"
        (fun _ _ => some [1, 2, 3]) 0).2.1, false) ∧
    (get_audio_bytes (get_audio_bytes [] "audio_cache" "hello" "en"
        (fun _ _ => some [1, 2, 3]) 0).2.1 "audio_cache" "hello" "en"
        (fun _ _ => some [1, 2, 3]) 300).2.2 = true := by
  have h := C10_audio_cache_freshness [] "audio_cache" "hello" "en"
    (fun _ _ => some [1, 2, 3]) [1, 2, 3] 0 100 300 rfl rfl (by decide) (by decide)
  exact ⟨by rw [h.1], h.2.1, h.2.2⟩

end ChatApp
